import Mathlib

/-!
# Verification of the `parallel-processor` repository

Shallow embedding of `src/parallelprocessor.py` (class `ParallelProcessor` and
class `BasicProgressBar`) and proofs of the specification's claims about it.

Modelling conventions:
* Python dicts are association lists (`List (Id × β)`), preserving insertion
  order like CPython dicts; lookup is `dictGet`, assignment is `dictSet`.
* `self.ids` is a Python `set`; the embedding stores its contents in insertion
  order and takes the set's *iteration order* as an explicit parameter
  `setIter : List Id → List Id` (CPython set iteration order is hash-based and
  is not in general the insertion order; `pySetIterSmall` below models the
  concrete CPython order for few small distinct nonnegative integers).
* A worker function is a pure function `List Val → Kwargs Val → Option Val`;
  `none` models the worker raising an exception.  An unset or non-callable
  worker is `none` at the `worker` field.
* `multiprocessing.Pool.apply_async` captures the call; the handle
  (`AsyncResult`) is modelled as the captured `Call`.  `AsyncResult.get(timeout)`
  is `resolve`: it fails (`none`) when the externally-given `timedOut` oracle
  says the handle exceeded its timeout, or when the worker raises.
* Python exceptions are `Except`/`Option` errors with the spec's taxonomy names
  (`PPError`); wall-clock time is an external `clock : Nat → ℚ` giving the time
  at each progress-bar write.
-/

namespace ParallelProcessorSpec

universe u v

/-- Lookup in a Python dict modelled as an association list
(first binding wins; keys are unique in all reachable states). -/
def dictGet {Id : Type u} {β : Type v} [DecidableEq Id] (m : List (Id × β)) (k : Id) :
    Option β :=
  match m with
  | [] => none
  | (k0, v) :: rest => if k0 = k then some v else dictGet rest k

/-- Python dict assignment `m[k] = v`: replaces the value in place if the key
exists (CPython keeps the key's position), otherwise appends the new binding. -/
def dictSet {Id : Type u} {β : Type v} [DecidableEq Id] (m : List (Id × β)) (k : Id) (v : β) :
    List (Id × β) :=
  match m with
  | [] => [(k, v)]
  | (k0, v0) :: rest => if k0 = k then (k0, v) :: rest else (k0, v0) :: dictSet rest k v

/-- Python truthiness of an optional tuple/dict argument: `None` and the empty
collection are falsy (`not func_args` in the source). -/
def pyTruthy {β : Type v} : Option (List β) → Bool
  | none => false
  | some l => !l.isEmpty

/-- Keyword arguments: a Python kwargs dict. -/
abbrev Kwargs (Val : Type v) := List (String × Val)

/-- A worker function; `none` models the worker raising an exception. -/
abbrev Worker (Val : Type v) := List Val → Kwargs Val → Option Val

/-- The call captured by `Pool.apply_async(worker, args=..., kwds=...)`:
the effective positional and keyword arguments.  This models the
`AsyncResult` handle, since the submitted function is pure. -/
abbrev Call (Val : Type v) := List Val × Kwargs Val

/-- Error taxonomy of the spec, mapped onto the Python exceptions raised by the
source (`ValueError` for registration errors, `AttributeError` for readiness
errors, and the propagated exception of a failed/timed-out task). -/
inductive PPError (Id : Type u) where
  /-- `ValueError`: `process_id` is not hashable (not reachable in the
  embedding, where every `Id` is usable as a key). -/
  | invalidIdentifier
  /-- `ValueError`: neither `func_args` nor `func_kwargs` passed (also the
  `ValueError` of `_pool_apply_async` when both arguments are `None`). -/
  | missingArguments
  /-- `ValueError`: `process_id` already in use. -/
  | duplicateIdentifier
  /-- `AttributeError` of `_pool_apply_async`: worker not set / not callable. -/
  | workerNotSet
  /-- `AttributeError` of `_create_processes`: no arguments stored. -/
  | noArgumentsRegistered
  /-- Exception propagating out of `AsyncResult.get`: the task with this
  identifier raised or exceeded its timeout. -/
  | taskFailure (id : Id)
  deriving DecidableEq

/-- State of one `ParallelProcessor` instance (its instance attributes). -/
structure ParallelProcessor (Id : Type u) (Val : Type v) where
  /-- `self.threads` (after the clamp performed by `_init_pool`). -/
  threads : Nat
  /-- `self.worker`; `none` is the unset / non-callable state. -/
  worker : Option (Worker Val)
  /-- Contents of the set `self.ids`, in insertion order. -/
  ids : List Id
  /-- `self.args : dict` mapping id to the stored `func_args` (possibly `None`). -/
  args : List (Id × Option (List Val))
  /-- `self.kwargs : dict` mapping id to the stored `func_kwargs` (possibly `None`). -/
  kwargs : List (Id × Option (Kwargs Val))
  /-- `self.processes : dict` mapping id to its submission handle. -/
  processes : List (Id × Call Val)
  /-- `self.results : dict` mapping id to its resolved value. -/
  results : List (Id × Val)
  /-- Whether `self.pool.close()` has been called. -/
  poolClosed : Bool

variable {Id : Type u} {Val : Type v}

/-- `ParallelProcessor.__init__` followed by `_init_pool`: attributes start
empty; `_init_pool` clamps `self.threads` down to `cpu_count()` before creating
the pool, so the stored `threads` is the clamped value. -/
def ParallelProcessor.init (worker : Option (Worker Val)) (threads : Nat) (cpuCount : Nat) :
    ParallelProcessor Id Val :=
  { threads := if threads > cpuCount then cpuCount else threads
    worker := worker
    ids := []
    args := []
    kwargs := []
    processes := []
    results := []
    poolClosed := false }

/-- `ParallelProcessor.set_worker`. -/
def ParallelProcessor.set_worker (p : ParallelProcessor Id Val) (worker : Option (Worker Val)) :
    ParallelProcessor Id Val :=
  { p with worker := worker }

/-- `ParallelProcessor.add_argument`.  The hashability check on `process_id`
always passes in the embedding; then the source checks
`not func_args and not func_kwargs` (Python truthiness), and only then whether
`process_id` is already in use.  On success the id is added to `self.ids` and
the arguments stored in `self.args` / `self.kwargs`. -/
def ParallelProcessor.add_argument [DecidableEq Id] (p : ParallelProcessor Id Val)
    (process_id : Id) (func_args : Option (List Val)) (func_kwargs : Option (Kwargs Val)) :
    Except (PPError Id) (ParallelProcessor Id Val) :=
  if !pyTruthy func_args && !pyTruthy func_kwargs then
    .error .missingArguments
  else if process_id ∈ p.ids then
    .error .duplicateIdentifier
  else
    .ok { p with
      ids := p.ids ++ [process_id]
      args := p.args ++ [(process_id, func_args)]
      kwargs := p.kwargs ++ [(process_id, func_kwargs)] }

/-- `ParallelProcessor._pool_apply_async`.  The `worker` parameter defaults to
`self.worker` when `None`; an unset/non-callable worker is an
`AttributeError`; both arguments `None` is a `ValueError`; otherwise the call
is submitted in one of three shapes (args and kwargs, args only, kwargs only)
selected by Python truthiness, and the resulting handle returned. -/
def ParallelProcessor.pool_apply_async (p : ParallelProcessor Id Val)
    (worker : Option (Worker Val)) (args : Option (List Val)) (kwargs : Option (Kwargs Val)) :
    Except (PPError Id) (Call Val) :=
  let wkr := match worker with
    | none => p.worker
    | some w => some w
  match wkr with
  | none => .error .workerNotSet
  | some _ =>
    if args.isNone && kwargs.isNone then
      .error .missingArguments
    else if pyTruthy args && pyTruthy kwargs then
      .ok (args.getD [], kwargs.getD [])
    else if pyTruthy args then
      .ok (args.getD [], [])
    else
      .ok ([], kwargs.getD [])

/-- The stored `func_args` of an identifier (`self.args[id]`; under the
registry invariant the key is always present, so the default is unreachable). -/
def ParallelProcessor.argsOf [DecidableEq Id] (p : ParallelProcessor Id Val) (id : Id) :
    Option (List Val) :=
  (dictGet p.args id).getD none

/-- The stored `func_kwargs` of an identifier (`self.kwargs[id]`). -/
def ParallelProcessor.kwargsOf [DecidableEq Id] (p : ParallelProcessor Id Val) (id : Id) :
    Option (Kwargs Val) :=
  (dictGet p.kwargs id).getD none

/-- The dict comprehension of `_create_processes`: submit each id of the
iterated set in turn; the first raised exception aborts the comprehension. -/
def ParallelProcessor.buildSubmissions [DecidableEq Id] (p : ParallelProcessor Id Val) :
    List Id → Except (PPError Id) (List (Id × Call Val))
  | [] => .ok []
  | id :: rest =>
    match p.pool_apply_async p.worker (p.argsOf id) (p.kwargsOf id) with
    | .error e => .error e
    | .ok call =>
      match p.buildSubmissions rest with
      | .error e => .error e
      | .ok tail => .ok ((id, call) :: tail)

/-- `ParallelProcessor._create_processes`: verify arguments exist, build the
id → handle dict by iterating the set `self.ids` (iteration order given by
`setIter`), then close the pool.  A raised exception leaves the instance
unchanged (the assignment to `self.processes` never happens). -/
def ParallelProcessor.create_processes [DecidableEq Id] (p : ParallelProcessor Id Val)
    (setIter : List Id → List Id) :
    Except (PPError Id) (ParallelProcessor Id Val) :=
  if p.ids.isEmpty || (p.args.isEmpty && p.kwargs.isEmpty) then
    .error .noArgumentsRegistered
  else
    match p.buildSubmissions (setIter p.ids) with
    | .error e => .error e
    | .ok procs => .ok { p with processes := procs, poolClosed := true }

/-- `AsyncResult.get(timeout)`: raises when the handle exceeded its timeout
(external oracle) or when the worker raised; otherwise the worker's value. -/
def resolve (w : Worker Val) (timedOut : Bool) (call : Call Val) : Option Val :=
  if timedOut then none else w call.1 call.2

/-- Resolution of one `(id, handle)` entry of the processes dict. -/
def resolveEntry (w : Worker Val) (timedOut : Id → Bool) (e : Id × Call Val) : Option Val :=
  resolve w (timedOut e.1) e.2

/-- The collection loop of `run` without a progress bar: for each
`(process_id, async_result)` in order, `self.results[process_id] =
async_result.get(timeout)`; the first failing `get` propagates out of the loop
before any assignment for that identifier. -/
def collect [DecidableEq Id] (w : Worker Val) (timedOut : Id → Bool) :
    List (Id × Call Val) → List (Id × Val) → List (Id × Val) × Option (PPError Id)
  | [], results => (results, none)
  | (id, call) :: rest, results =>
    match resolve w (timedOut id) call with
    | some v => collect w timedOut rest (dictSet results id v)
    | none => (results, some (.taskFailure id))

/-- Render a rational number of seconds with two decimal places, modelling the
Python format `f"{s:.2f}"` (Python rounds half to even; the embedding rounds
half away from zero at exact half-hundredths, immaterial to the claims). -/
def fmt2 (q : ℚ) : String :=
  let c : ℤ := round (q * 100)
  let frac : ℕ := (c % 100).toNat
  toString (c / 100) ++ "." ++ (if frac < 10 then "0" else "") ++ toString frac

/-- `BasicProgressBar._time_passed` over the elapsed wall-clock time
`t = time.time() - self.start_time`: hours and minutes by floor division,
the remaining fractional seconds rendered with two decimals. -/
def BasicProgressBar.time_passed (t : ℚ) : String :=
  let h : ℤ := ⌊t / (60 ^ 2 : ℚ)⌋
  let m : ℤ := ⌊(t - (h : ℚ) * 60 ^ 2) / 60⌋
  let s : ℚ := t - ((h : ℚ) * 60 ^ 2 + (m : ℚ) * 60)
  toString h ++ " hours " ++ toString m ++ " minutes " ++ fmt2 s ++ " seconds"

/-- The body of the message written by the `i`-th call to
`BasicProgressBar.__next__` (everything after the leading carriage return and
before the optional trailing newline).  `self.start_time` is set on the first
call, so the elapsed time at call `i` is `clock i - clock 0`. -/
def BasicProgressBar.msgBody (clock : ℕ → ℚ) (i total : ℕ) : String :=
  "Completed " ++ toString i ++ "/" ++ toString total ++ " processes. " ++
    BasicProgressBar.time_passed (clock i - clock 0) ++ " passed."

/-- The full string written by the `i`-th call to `BasicProgressBar.__next__`:
`msg = f"\rCompleted {i}/{len} ..."`, with a newline appended exactly when
`self.i == self.len`. -/
def BasicProgressBar.msg (clock : ℕ → ℚ) (i total : ℕ) : String :=
  let msg := "\r" ++ BasicProgressBar.msgBody clock i total
  if i = total then msg ++ "\n" else msg

/-- Driving a `for` loop over a `BasicProgressBar` wrapping a remaining
iterator `rest`, with counter `self.i = i` and `self.len = total`: every call
to `__next__` first writes its message and increments `self.i`, and then either
yields the next underlying item or raises `StopIteration` (which ends the loop
*after* the write).  Returns the items yielded and the strings written. -/
def BasicProgressBar.drive (clock : ℕ → ℚ) (total : ℕ) {α : Type u} :
    List α → ℕ → List α × List String
  | [], i => ([], [BasicProgressBar.msg clock i total])
  | x :: rest, i =>
    let step := BasicProgressBar.drive clock total rest (i + 1)
    (x :: step.1, BasicProgressBar.msg clock i total :: step.2)

/-- Consuming a whole sequence through `BasicProgressBar` (as in
`list(BasicProgressBar(items))` or an exhausted `for` loop): the wrapper is
constructed with `self.len = len(items)`, `self.i = 0`. -/
def BasicProgressBar.consume (clock : ℕ → ℚ) {α : Type u} (items : List α) :
    List α × List String :=
  BasicProgressBar.drive clock items.length items 0

/-- The collection loop of `run` with the built-in progress bar: each loop
iteration first consumes one `(id, handle)` from the `BasicProgressBar`
(which writes one message), then blocks on the handle; the first failing `get`
aborts the loop before any further write.  When the loop exhausts the wrapper,
the final `__next__` call writes the `i = len` message (with its newline)
before raising `StopIteration`. -/
def collectProgress [DecidableEq Id] (w : Worker Val) (timedOut : Id → Bool)
    (clock : ℕ → ℚ) (total : ℕ) :
    List (Id × Call Val) → ℕ → List (Id × Val) → List String →
      List (Id × Val) × List String × Option (PPError Id)
  | [], i, results, out => (results, out ++ [BasicProgressBar.msg clock i total], none)
  | (id, call) :: rest, i, results, out =>
    let out := out ++ [BasicProgressBar.msg clock i total]
    match resolve w (timedOut id) call with
    | some v => collectProgress w timedOut clock total rest (i + 1) (dictSet results id v) out
    | none => (results, out, some (.taskFailure id))

/-- Outcome of one `run` call: the instance state afterwards, the exception
that propagated out of `run` (if any), and everything written to stdout. -/
structure RunResult (Id : Type u) (Val : Type v) where
  proc : ParallelProcessor Id Val
  err : Option (PPError Id)
  output : List String

/-- The final `print` of `run` (the newline appended by `print` is part of
the string). -/
def runCompleteMsg : String :=
  "Processing complete. Results can be accessed via ParallelProcessor.results\n"

/-- `ParallelProcessor.run`: create the processes (a raised exception leaves
the instance unchanged and propagates), then collect every handle in the order
of the processes dict, optionally wrapped in the built-in progress bar (the
`tqdm` path is an external dependency and is not modelled; `progressbar = true`
takes the `BasicProgressBar` fallback).  The worker consulted by the handles is
the one captured at submission time, i.e. `self.worker` (unchanged since
`_create_processes`).  The final `print` runs only if the loop completes. -/
def ParallelProcessor.run [DecidableEq Id] (p : ParallelProcessor Id Val)
    (setIter : List Id → List Id) (timedOut : Id → Bool) (clock : ℕ → ℚ)
    (progressbar : Bool) : RunResult Id Val :=
  match p.create_processes setIter with
  | .error e => ⟨p, some e, []⟩
  | .ok p1 =>
    match p1.worker with
    | none => ⟨p1, some .workerNotSet, []⟩
    | some w =>
      if progressbar then
        let step := collectProgress w timedOut clock p1.processes.length p1.processes 0
          p1.results []
        ⟨{ p1 with results := step.1 }, step.2.2,
          step.2.1 ++ if step.2.2.isNone then [runCompleteMsg] else []⟩
      else
        let step := collect w timedOut p1.processes p1.results
        ⟨{ p1 with results := step.1 }, step.2,
          if step.2.isNone then [runCompleteMsg] else []⟩

/-- The effective call submitted by `_pool_apply_async` for stored arguments
that passed validation: the three submission shapes collapse to "missing or
falsy parts become empty". -/
def asyncCall (a : Option (List Val)) (k : Option (Kwargs Val)) : Call Val :=
  if pyTruthy a && pyTruthy k then (a.getD [], k.getD [])
  else if pyTruthy a then (a.getD [], [])
  else ([], k.getD [])

/-- Register a list of `(process_id, func_args, func_kwargs)` tasks in order;
the first raised exception aborts the sequence. -/
def ParallelProcessor.addTasks [DecidableEq Id] (p : ParallelProcessor Id Val) :
    List (Id × Option (List Val) × Option (Kwargs Val)) →
      Except (PPError Id) (ParallelProcessor Id Val)
  | [] => .ok p
  | (id, a, k) :: rest =>
    match p.add_argument id a k with
    | .ok p1 => p1.addTasks rest
    | .error e => .error e

/-- One caller-visible operation on a `ParallelProcessor` instance. -/
inductive Op (Id : Type u) (Val : Type v) where
  /-- `set_worker`. -/
  | setWorkerOp (worker : Option (Worker Val))
  /-- `add_argument` (the call may raise; the instance is then unchanged). -/
  | addTaskOp (id : Id) (a : Option (List Val)) (k : Option (Kwargs Val))
  /-- `_create_processes` (dispatch). -/
  | dispatchOp (setIter : List Id → List Id)
  /-- `run`. -/
  | runOp (setIter : List Id → List Id) (timedOut : Id → Bool) (clock : ℕ → ℚ)
      (progressbar : Bool)

/-- The instance state after performing one operation, whether it succeeds or
raises (a raised Python exception leaves the embedded state as the operation
left it). -/
def applyOp [DecidableEq Id] (p : ParallelProcessor Id Val) : Op Id Val → ParallelProcessor Id Val
  | .setWorkerOp w => p.set_worker w
  | .addTaskOp id a k =>
    match p.add_argument id a k with
    | .ok p1 => p1
    | .error _ => p
  | .dispatchOp setIter =>
    match p.create_processes setIter with
    | .ok p1 => p1
    | .error _ => p
  | .runOp setIter timedOut clock progressbar =>
    (p.run setIter timedOut clock progressbar).proc

/-- The state reached from an initial state by a sequence of operations. -/
def reach [DecidableEq Id] (p : ParallelProcessor Id Val) (ops : List (Op Id Val)) :
    ParallelProcessor Id Val :=
  ops.foldl applyOp p

/-- CPython iteration order of a set holding fewer than five distinct
nonnegative integers below 8: the hash of a small `int` is itself, the initial
hash table has 8 slots, so element `n` sits in slot `n % 8` and iteration scans
the slots in increasing index — independent of insertion order.
(Concretely, `list({2, 1}) == [1, 2]` in CPython.) -/
def pySetIterSmall (inserted : List ℕ) : List ℕ :=
  (List.range 8).filterMap (fun slot => inserted.find? (fun n => n % 8 = slot))

/-- Derived description of the processes dict built by a successful
`_create_processes`: one handle per iterated identifier, in iteration order
(proved equal to the code's construction in `create_processes_ok` below). -/
def ParallelProcessor.submissions [DecidableEq Id] (p : ParallelProcessor Id Val)
    (setIter : List Id → List Id) : List (Id × Call Val) :=
  (setIter p.ids).map (fun id => (id, asyncCall (p.argsOf id) (p.kwargsOf id)))

/-- Registry shape maintained by the source: `self.args` and `self.kwargs`
hold exactly the identifiers of `self.ids`, in insertion order. -/
abbrev RegShape (p : ParallelProcessor Id Val) : Prop :=
  p.args.map Prod.fst = p.ids ∧ p.kwargs.map Prod.fst = p.ids

/-- Every registered identifier has at least one truthy stored argument
(enforced by `add_argument`). -/
abbrev ValidEntries [DecidableEq Id] (p : ParallelProcessor Id Val) : Prop :=
  ∀ id ∈ p.ids, (pyTruthy (p.argsOf id) || pyTruthy (p.kwargsOf id)) = true

/-- A well-formed registry: consistent shape, pairwise-distinct identifiers,
valid entries. -/
abbrev WF [DecidableEq Id] (p : ParallelProcessor Id Val) : Prop :=
  RegShape p ∧ p.ids.Nodup ∧ ValidEntries p

/-- The relation between a submission entry and the result entry the
collection loop stores for it: same identifier, value produced by resolving
the handle. -/
def Collected (w : Worker Val) (timedOut : Id → Bool) (e : Id × Call Val) (r : Id × Val) :
    Prop :=
  e.1 = r.1 ∧ resolveEntry w timedOut e = some r.2

/-- Worker squaring its single positional argument (like the repository test
worker `dummy_worker_1`); raises on any other argument shape. -/
def sampleWorker : Worker ℕ := fun a _ =>
  match a with
  | [x] => some (x * x)
  | _ => none

/-- A concrete instance with three registered tasks. -/
def sampleProcessor : ParallelProcessor ℕ ℕ :=
  { threads := 2
    worker := some sampleWorker
    ids := [1, 2, 3]
    args := [(1, some [1]), (2, some [2]), (3, some [3])]
    kwargs := [(1, none), (2, none), (3, none)]
    processes := []
    results := []
    poolClosed := false }

/-- Worker that raises on the argument tuple `(7,)` and squares otherwise. -/
def failWorker : Worker ℕ := fun a _ =>
  match a with
  | [7] => none
  | [x] => some (x * x)
  | _ => none

/-- A concrete instance whose second task (id 2, args `(7,)`) fails. -/
def failProcessor : ParallelProcessor ℕ ℕ :=
  { threads := 2
    worker := some failWorker
    ids := [1, 2, 3]
    args := [(1, some [5]), (2, some [7]), (3, some [3])]
    kwargs := [(1, none), (2, none), (3, none)]
    processes := []
    results := []
    poolClosed := false }

/-- A concrete instance whose identifiers were registered in the order 2, 1
(the state after `add_argument(2, (2,))` then `add_argument(1, (1,))`). -/
def orderProcessor : ParallelProcessor ℕ ℕ :=
  { threads := 2
    worker := some sampleWorker
    ids := [2, 1]
    args := [(2, some [2]), (1, some [1])]
    kwargs := [(2, none), (1, none)]
    processes := []
    results := []
    poolClosed := false }

/-- A concrete instance with one task registered and no worker set. -/
def noWorkerProcessor : ParallelProcessor ℕ ℕ :=
  { threads := 2
    worker := none
    ids := [1]
    args := [(1, some [5])]
    kwargs := [(1, none)]
    processes := []
    results := []
    poolClosed := false }

/-- The state reached by constructing with worker `sampleWorker`, 8 requested
threads on a 2-thread machine, then registering ids 1 and 2. -/
def clampProcessor : ParallelProcessor ℕ ℕ :=
  { threads := 2
    worker := some sampleWorker
    ids := [1, 2]
    args := [(1, some [1]), (2, some [2])]
    kwargs := [(1, none), (2, none)]
    processes := []
    results := []
    poolClosed := false }

section Lemmas

variable [DecidableEq Id]

theorem pyTruthy_isNone_false {β : Type v} {o : Option (List β)} (h : pyTruthy o = true) :
    o.isNone = false := by
  cases o <;> simp_all [pyTruthy]

theorem dictGet_isSome_iff {β : Type v} (m : List (Id × β)) (k : Id) :
    (dictGet m k).isSome = true ↔ k ∈ m.map Prod.fst := by
  induction m with
  | nil => simp [dictGet]
  | cons e rest ih =>
    obtain ⟨k0, v⟩ := e
    by_cases hk : k0 = k
    · subst hk
      simp [dictGet]
    · simp [dictGet, hk, ih, Ne.symm hk]

theorem dictGet_append_left {β : Type v} {m1 : List (Id × β)} (m2 : List (Id × β)) {k : Id}
    (h : k ∈ m1.map Prod.fst) : dictGet (m1 ++ m2) k = dictGet m1 k := by
  induction m1 with
  | nil => simp at h
  | cons e rest ih =>
    obtain ⟨k0, v⟩ := e
    by_cases hk : k0 = k
    · simp [dictGet, hk]
    · simp only [List.map_cons, List.mem_cons] at h
      rcases h with h | h

      · exact absurd h.symm hk
      · simp [dictGet, hk, ih h]

theorem dictGet_append_right {β : Type v} {m1 : List (Id × β)} (m2 : List (Id × β)) {k : Id}
    (h : k ∉ m1.map Prod.fst) : dictGet (m1 ++ m2) k = dictGet m2 k := by
  induction m1 with
  | nil => simp
  | cons e rest ih =>
    obtain ⟨k0, v⟩ := e
    simp only [List.map_cons, List.mem_cons, not_or] at h
    simp [dictGet, Ne.symm h.1, ih h.2]

theorem dictSet_fresh {β : Type v} {m : List (Id × β)} {k : Id} (v : β)
    (h : k ∉ m.map Prod.fst) : dictSet m k v = m ++ [(k, v)] := by
  induction m with
  | nil => simp [dictSet]
  | cons e rest ih =>
    obtain ⟨k0, v0⟩ := e
    simp only [List.map_cons, List.mem_cons, not_or] at h
    simp [dictSet, Ne.symm h.1, ih h.2]

theorem pool_apply_async_ok {p : ParallelProcessor Id Val} {w : Worker Val}
    (hw : p.worker = some w) {a : Option (List Val)} {k : Option (Kwargs Val)}
    (hv : (pyTruthy a || pyTruthy k) = true) :
    p.pool_apply_async p.worker a k = .ok (asyncCall a k) := by
  rcases Bool.or_eq_true_iff.mp hv with ha | hk
  · have hna := pyTruthy_isNone_false ha
    cases hpk : pyTruthy k <;>
      simp [ParallelProcessor.pool_apply_async, asyncCall, hw, ha, hna, hpk]
  · have hnk := pyTruthy_isNone_false hk
    cases hpa : pyTruthy a <;>
      simp [ParallelProcessor.pool_apply_async, asyncCall, hw, hk, hnk, hpa,
        Bool.and_comm]

theorem buildSubmissions_ok {p : ParallelProcessor Id Val} {w : Worker Val}
    (hw : p.worker = some w) :
    ∀ (l : List Id),
      (∀ id ∈ l, (pyTruthy (p.argsOf id) || pyTruthy (p.kwargsOf id)) = true) →
      p.buildSubmissions l = .ok (l.map (fun id => (id, asyncCall (p.argsOf id) (p.kwargsOf id))))
  | [], _ => rfl
  | id :: rest, h => by
    have hhead := pool_apply_async_ok hw (h id (by simp))
    have htail := buildSubmissions_ok hw rest (fun i hi => h i (by simp [hi]))
    simp [ParallelProcessor.buildSubmissions, hhead, htail]

theorem submissions_keys (p : ParallelProcessor Id Val) (setIter : List Id → List Id) :
    (p.submissions setIter).map Prod.fst = setIter p.ids := by
  simp [ParallelProcessor.submissions, List.map_map, Function.comp_def]

theorem create_processes_ok {p : ParallelProcessor Id Val} {w : Worker Val}
    {setIter : List Id → List Id}
    (hw : p.worker = some w) (hshape : RegShape p) (hvalid : ValidEntries p)
    (hne : p.ids ≠ []) (hmem : ∀ id ∈ setIter p.ids, id ∈ p.ids) :
    p.create_processes setIter =
      .ok { p with processes := p.submissions setIter, poolClosed := true } := by
  have hids : p.ids.isEmpty = false := by
    cases h : p.ids with
    | nil => exact absurd h hne
    | cons a l => simp [h]
  have hargs : p.args.isEmpty = false := by
    cases h : p.args with
    | nil => exact absurd (by simpa [h] using hshape.1.symm) hne
    | cons a l => simp [h]
  have hbuild := buildSubmissions_ok hw (setIter p.ids)
    (fun id hi => hvalid id (hmem id hi))
  simp [ParallelProcessor.create_processes, hids, hargs, hbuild,
    ParallelProcessor.submissions]

theorem create_processes_inv {p q : ParallelProcessor Id Val} {setIter : List Id → List Id}
    (h : p.create_processes setIter = .ok q) :
    ∃ procs, p.buildSubmissions (setIter p.ids) = .ok procs ∧
      q = { p with processes := procs, poolClosed := true } := by
  by_cases hc : (p.ids.isEmpty || (p.args.isEmpty && p.kwargs.isEmpty)) = true
  · simp [ParallelProcessor.create_processes, hc] at h
  · simp only [ParallelProcessor.create_processes, Bool.not_eq_true] at h hc
    rw [hc] at h
    simp only [Bool.false_eq_true, if_false] at h
    cases hb : p.buildSubmissions (setIter p.ids) with
    | error e => rw [hb] at h; cases h
    | ok procs =>
      rw [hb] at h
      exact ⟨procs, rfl, (Except.ok.injEq _ _ ▸ h).symm ▸ rfl⟩

theorem collect_err_none {w : Worker Val} {timedOut : Id → Bool} :
    ∀ (procs : List (Id × Call Val)) (acc : List (Id × Val)),
      (∀ e ∈ procs, (resolveEntry w timedOut e).isSome = true) →
      (collect w timedOut procs acc).2 = none
  | [], _, _ => rfl
  | (id, call) :: rest, acc, h => by
    have hh : (resolveEntry w timedOut (id, call)).isSome = true := h _ (by simp)
    cases hr : resolve w (timedOut id) call with
    | none => rw [resolveEntry, hr] at hh; cases hh
    | some v =>
      simp only [collect, hr]
      exact collect_err_none rest _ (fun e he => h e (by simp [he]))

theorem collect_ok_shape {w : Worker Val} {timedOut : Id → Bool} :
    ∀ (procs : List (Id × Call Val)) (acc : List (Id × Val)),
      (collect w timedOut procs acc).2 = none →
      (∀ e ∈ procs, e.1 ∉ acc.map Prod.fst) →
      (procs.map Prod.fst).Nodup →
      ∃ tail, collect w timedOut procs acc = (acc ++ tail, none) ∧
        List.Forall₂ (Collected w timedOut) procs tail
  | [], acc, _, _, _ => ⟨[], by simp [collect], List.Forall₂.nil⟩
  | (id, call) :: rest, acc, herr, hfresh, hnd => by
    cases hr : resolve w (timedOut id) call with
    | none => simp [collect, hr] at herr
    | some v =>
      simp only [collect, hr] at herr ⊢
      have hid : id ∉ acc.map Prod.fst := hfresh (id, call) (by simp)
      have hset : dictSet acc id v = acc ++ [(id, v)] := dictSet_fresh v hid
      simp only [List.map_cons, List.nodup_cons] at hnd
      have hfresh' : ∀ e ∈ rest, e.1 ∉ (acc ++ [(id, v)]).map Prod.fst := by
        intro e he
        simp only [List.map_append, List.mem_append, List.map_cons, List.map_nil,
          List.mem_singleton, not_or]
        refine ⟨hfresh e (by simp [he]), ?_⟩
        intro hcon
        exact hnd.1 (hcon ▸ List.mem_map_of_mem Prod.fst he)
      obtain ⟨tail, hcoll, hfa⟩ :=
        collect_ok_shape rest (acc ++ [(id, v)])
          (by rw [hset] at herr; exact herr) hfresh' hnd.2
      refine ⟨(id, v) :: tail, ?_, ?_⟩
      · rw [hset, hcoll]
        simp
      · exact List.Forall₂.cons ⟨rfl, by simp [resolveEntry, hr]⟩ hfa

theorem collect_fail_shape {w : Worker Val} {timedOut : Id → Bool} :
    ∀ (procs : List (Id × Call Val)) (acc : List (Id × Val)) {err : PPError Id},
      (collect w timedOut procs acc).2 = some err →
      (∀ e ∈ procs, e.1 ∉ acc.map Prod.fst) →
      (procs.map Prod.fst).Nodup →
      ∃ fid call pre post tail, err = .taskFailure fid ∧
        procs = pre ++ (fid, call) :: post ∧
        resolveEntry w timedOut (fid, call) = none ∧
        collect w timedOut procs acc = (acc ++ tail, some err) ∧
        List.Forall₂ (Collected w timedOut) pre tail
  | [], _, _, herr, _, _ => by simp [collect] at herr
  | (id, call) :: rest, acc, err, herr, hfresh, hnd => by
    cases hr : resolve w (timedOut id) call with
    | none =>
      simp only [collect, hr] at herr ⊢
      refine ⟨id, call, [], rest, [], ?_, by simp, by simp [resolveEntry, hr], ?_, .nil⟩
      · cases herr; rfl
      · cases herr; simp
    | some v =>
      simp only [collect, hr] at herr ⊢
      have hid : id ∉ acc.map Prod.fst := hfresh (id, call) (by simp)
      have hset : dictSet acc id v = acc ++ [(id, v)] := dictSet_fresh v hid
      simp only [List.map_cons, List.nodup_cons] at hnd
      have hfresh' : ∀ e ∈ rest, e.1 ∉ (acc ++ [(id, v)]).map Prod.fst := by
        intro e he
        simp only [List.map_append, List.mem_append, List.map_cons, List.map_nil,
          List.mem_singleton, not_or]
        refine ⟨hfresh e (by simp [he]), ?_⟩
        intro hcon
        exact hnd.1 (hcon ▸ List.mem_map_of_mem Prod.fst he)
      obtain ⟨fid, c2, pre, post, tail, he, hsplit, hres, hcoll, hfa⟩ :=
        collect_fail_shape rest (acc ++ [(id, v)])
          (by rw [hset] at herr; exact herr) hfresh' hnd.2
      refine ⟨fid, c2, (id, call) :: pre, post, (id, v) :: tail, he, by simp [hsplit], hres,
        ?_, List.Forall₂.cons ⟨rfl, by simp [resolveEntry, hr]⟩ hfa⟩
      rw [hset, hcoll]
      simp

theorem collectProgress_fst {w : Worker Val} {timedOut : Id → Bool} {clock : ℕ → ℚ}
    {total : ℕ} :
    ∀ {procs : List (Id × Call Val)} {i : ℕ} {acc : List (Id × Val)} {out : List String},
      (collectProgress w timedOut clock total procs i acc out).1 =
        (collect w timedOut procs acc).1
  | [], _, _, _ => rfl
  | (id, call) :: rest, i, acc, out => by
    cases hr : resolve w (timedOut id) call with
    | none => simp [collectProgress, collect, hr]
    | some v =>
      simp only [collectProgress, collect, hr]
      exact collectProgress_fst

theorem collectProgress_err {w : Worker Val} {timedOut : Id → Bool} {clock : ℕ → ℚ}
    {total : ℕ} :
    ∀ {procs : List (Id × Call Val)} {i : ℕ} {acc : List (Id × Val)} {out : List String},
      (collectProgress w timedOut clock total procs i acc out).2.2 =
        (collect w timedOut procs acc).2
  | [], _, _, _ => rfl
  | (id, call) :: rest, i, acc, out => by
    cases hr : resolve w (timedOut id) call with
    | none => simp [collectProgress, collect, hr]
    | some v =>
      simp only [collectProgress, collect, hr]
      exact collectProgress_err

theorem forall2_collected_map_fst {w : Worker Val} {timedOut : Id → Bool}
    {procs : List (Id × Call Val)} {tail : List (Id × Val)}
    (h : List.Forall₂ (Collected w timedOut) procs tail) :
    tail.map Prod.fst = procs.map Prod.fst := by
  induction h with
  | nil => rfl
  | cons h1 _ ih => simp [ih, h1.1]

theorem forall2_collected_dictGet {w : Worker Val} {timedOut : Id → Bool}
    {procs : List (Id × Call Val)} {tail : List (Id × Val)}
    (h : List.Forall₂ (Collected w timedOut) procs tail)
    (hnd : (procs.map Prod.fst).Nodup) :
    ∀ {id : Id} {call : Call Val}, (id, call) ∈ procs →
      ∃ v, resolveEntry w timedOut (id, call) = some v ∧ dictGet tail id = some v := by
  induction h with
  | nil => intro id call h; cases h
  | @cons e r procs2 tail2 h1 h2 ih =>
    intro id call hmem
    simp only [List.map_cons, List.nodup_cons] at hnd
    rcases List.mem_cons.mp hmem with heq | hrest
    · subst heq
      refine ⟨r.2, h1.2, ?_⟩
      obtain ⟨rid, rv⟩ := r
      have : id = rid := h1.1
      simp [dictGet, this]
    · have hne : id ≠ e.1 := by
        intro hcon
        exact hnd.1 (hcon ▸ List.mem_map_of_mem Prod.fst hrest)
      obtain ⟨v, hres, hget⟩ := ih hnd.2 hrest
      refine ⟨v, hres, ?_⟩
      obtain ⟨rid, rv⟩ := r
      have hre : e.1 = rid := h1.1
      have : rid ≠ id := by rw [← hre]; exact Ne.symm hne
      simpa [dictGet, this] using hget

theorem run_unfold_ok {p : ParallelProcessor Id Val} {w : Worker Val}
    {setIter : List Id → List Id} (timedOut : Id → Bool) (clock : ℕ → ℚ)
    (progressbar : Bool)
    (hw : p.worker = some w) (hshape : RegShape p) (hvalid : ValidEntries p)
    (hne : p.ids ≠ []) (hmem : ∀ id ∈ setIter p.ids, id ∈ p.ids) :
    (p.run setIter timedOut clock progressbar).proc.results =
        (collect w timedOut (p.submissions setIter) p.results).1 ∧
      (p.run setIter timedOut clock progressbar).err =
        (collect w timedOut (p.submissions setIter) p.results).2 := by
  have hc := create_processes_ok hw hshape hvalid hne hmem
  cases progressbar with
  | false =>
    simp [ParallelProcessor.run, hc, hw]
  | true =>
    simp [ParallelProcessor.run, hc, hw, collectProgress_fst, collectProgress_err]

theorem run_ok_forall2 {p : ParallelProcessor Id Val} {w : Worker Val}
    {setIter : List Id → List Id} {timedOut : Id → Bool} {clock : ℕ → ℚ}
    {progressbar : Bool}
    (hw : p.worker = some w) (hwf : WF p) (hres : p.results = [])
    (hperm : (setIter p.ids).Perm p.ids)
    (herr : (p.run setIter timedOut clock progressbar).err = none) :
    List.Forall₂ (Collected w timedOut) (p.submissions setIter)
      ((p.run setIter timedOut clock progressbar).proc.results) := by
  obtain ⟨hshape, hnd, hvalid⟩ := hwf
  have hne : p.ids ≠ [] := by
    intro hnil
    rw [ParallelProcessor.run] at herr
    have : p.create_processes setIter = .error .noArgumentsRegistered := by
      simp [ParallelProcessor.create_processes, hnil]
    rw [this] at herr
    cases herr
  have hmem : ∀ id ∈ setIter p.ids, id ∈ p.ids := fun id hi => hperm.mem_iff.mp hi
  obtain ⟨hrs, he⟩ := run_unfold_ok timedOut clock progressbar hw hshape hvalid hne hmem
  rw [he, hres] at herr
  have hndk : ((p.submissions setIter).map Prod.fst).Nodup := by
    rw [submissions_keys]
    exact hperm.symm.nodup hnd
  obtain ⟨tail, hcoll, hfa⟩ := collect_ok_shape _ [] herr (by simp) hndk
  rw [hrs, hres, hcoll]
  simpa using hfa

theorem run_ok_lookup {p : ParallelProcessor Id Val} {w : Worker Val}
    {setIter : List Id → List Id} {timedOut : Id → Bool} {clock : ℕ → ℚ}
    {progressbar : Bool}
    (hw : p.worker = some w) (hwf : WF p) (hres : p.results = [])
    (hperm : (setIter p.ids).Perm p.ids)
    (herr : (p.run setIter timedOut clock progressbar).err = none) :
    ∀ id ∈ p.ids,
      dictGet ((p.run setIter timedOut clock progressbar).proc.results) id =
        w (asyncCall (p.argsOf id) (p.kwargsOf id)).1
          (asyncCall (p.argsOf id) (p.kwargsOf id)).2 := by
  intro id hid
  have hfa := run_ok_forall2 hw hwf hres hperm herr
  have hndk : ((p.submissions setIter).map Prod.fst).Nodup := by
    rw [submissions_keys]
    exact hperm.symm.nodup hwf.2.1
  have hmem : (id, asyncCall (p.argsOf id) (p.kwargsOf id)) ∈ p.submissions setIter := by
    rw [ParallelProcessor.submissions]
    exact List.mem_map_of_mem _ (hperm.mem_iff.mpr hid)
  obtain ⟨v, hresolve, hget⟩ := forall2_collected_dictGet hfa hndk hmem
  rw [hget]
  rw [resolveEntry, resolve] at hresolve
  by_cases ht : timedOut id = true
  · rw [ht] at hresolve
    simp at hresolve
  · rw [Bool.not_eq_true] at ht
    rw [ht] at hresolve
    simp only [Bool.false_eq_true, if_false] at hresolve
    exact hresolve.symm

theorem run_ok_keys {p : ParallelProcessor Id Val} {w : Worker Val}
    {setIter : List Id → List Id} {timedOut : Id → Bool} {clock : ℕ → ℚ}
    {progressbar : Bool}
    (hw : p.worker = some w) (hwf : WF p) (hres : p.results = [])
    (hperm : (setIter p.ids).Perm p.ids)
    (herr : (p.run setIter timedOut clock progressbar).err = none) :
    ((p.run setIter timedOut clock progressbar).proc.results).map Prod.fst =
      setIter p.ids := by
  have hfa := run_ok_forall2 hw hwf hres hperm herr
  rw [forall2_collected_map_fst hfa, submissions_keys]

theorem run_total_ok {p : ParallelProcessor Id Val} {w : Worker Val}
    {setIter : List Id → List Id} {timedOut : Id → Bool} (clock : ℕ → ℚ)
    (progressbar : Bool)
    (hw : p.worker = some w) (hwf : WF p)
    (hne : p.ids ≠ []) (hperm : (setIter p.ids).Perm p.ids)
    (hall : ∀ e ∈ p.submissions setIter, (resolveEntry w timedOut e).isSome = true) :
    (p.run setIter timedOut clock progressbar).err = none := by
  obtain ⟨hshape, hnd, hvalid⟩ := hwf
  have hmem : ∀ id ∈ setIter p.ids, id ∈ p.ids := fun id hi => hperm.mem_iff.mp hi
  obtain ⟨_, he⟩ := run_unfold_ok timedOut clock progressbar hw hshape hvalid hne hmem
  rw [he]
  exact collect_err_none _ _ hall

theorem run_fail_shape {p : ParallelProcessor Id Val} {w : Worker Val}
    {setIter : List Id → List Id} {timedOut : Id → Bool} {clock : ℕ → ℚ}
    {progressbar : Bool} {e : PPError Id}
    (hw : p.worker = some w) (hwf : WF p) (hres : p.results = [])
    (hperm : (setIter p.ids).Perm p.ids)
    (herr : (p.run setIter timedOut clock progressbar).err = some e)
    (hne : p.ids ≠ []) :
    ∃ fid call pre post,
      e = .taskFailure fid ∧
      p.submissions setIter = pre ++ (fid, call) :: post ∧
      resolveEntry w timedOut (fid, call) = none ∧
      List.Forall₂ (Collected w timedOut) pre
        ((p.run setIter timedOut clock progressbar).proc.results) := by
  obtain ⟨hshape, hnd, hvalid⟩ := hwf
  have hmem : ∀ id ∈ setIter p.ids, id ∈ p.ids := fun id hi => hperm.mem_iff.mp hi
  obtain ⟨hrs, he⟩ := run_unfold_ok timedOut clock progressbar hw hshape hvalid hne hmem
  rw [he, hres] at herr
  have hndk : ((p.submissions setIter).map Prod.fst).Nodup := by
    rw [submissions_keys]
    exact hperm.symm.nodup hnd
  obtain ⟨fid, call, pre, post, tail, heq, hsplit, hresolve, hcoll, hfa⟩ :=
    collect_fail_shape _ [] herr (by simp) hndk
  refine ⟨fid, call, pre, post, heq, hsplit, hresolve, ?_⟩
  rw [hrs, hres, hcoll]
  simpa using hfa

theorem add_argument_ok_inv {p q : ParallelProcessor Id Val} {id : Id}
    {a : Option (List Val)} {k : Option (Kwargs Val)}
    (h : p.add_argument id a k = .ok q) :
    (pyTruthy a || pyTruthy k) = true ∧ id ∉ p.ids ∧
      q = { p with
        ids := p.ids ++ [id]
        args := p.args ++ [(id, a)]
        kwargs := p.kwargs ++ [(id, k)] } := by
  by_cases hv : (!pyTruthy a && !pyTruthy k) = true
  · simp [ParallelProcessor.add_argument, hv] at h
  · by_cases hid : id ∈ p.ids
    · simp [ParallelProcessor.add_argument, hv, hid] at h
    · refine ⟨?_, hid, ?_⟩
      · revert hv
        cases pyTruthy a <;> cases pyTruthy k <;> simp
      · simp only [ParallelProcessor.add_argument, hv, hid] at h
        simp only [Bool.false_eq_true, if_false, if_neg hid] at h
        exact (Except.ok.injEq _ _ ▸ h).symm ▸ rfl

theorem add_argument_ok_wf {p q : ParallelProcessor Id Val} {id : Id}
    {a : Option (List Val)} {k : Option (Kwargs Val)}
    (hwf : WF p) (h : p.add_argument id a k = .ok q) : WF q := by
  obtain ⟨hv, hid, hq⟩ := add_argument_ok_inv h
  obtain ⟨⟨ha, hk⟩, hnd, hvalid⟩ := hwf
  subst hq
  refine ⟨⟨by simp [ha], by simp [hk]⟩, ?_, ?_⟩
  · simp [List.nodup_append, hnd, hid]
  · intro i hi
    simp only [List.mem_append, List.mem_singleton] at hi
    rcases hi with hi | hi
    · have hia : i ∈ p.args.map Prod.fst := ha ▸ hi
      have hik : i ∈ p.kwargs.map Prod.fst := hk ▸ hi
      have hga : ParallelProcessor.argsOf
          { p with
            ids := p.ids ++ [id]
            args := p.args ++ [(id, a)]
            kwargs := p.kwargs ++ [(id, k)] } i = p.argsOf i := by
        simp [ParallelProcessor.argsOf, dictGet_append_left _ hia]
      have hgk : ParallelProcessor.kwargsOf
          { p with
            ids := p.ids ++ [id]
            args := p.args ++ [(id, a)]
            kwargs := p.kwargs ++ [(id, k)] } i = p.kwargsOf i := by
        simp [ParallelProcessor.kwargsOf, dictGet_append_left _ hik]
      rw [hga, hgk]
      exact hvalid i hi
    · subst hi
      have hia : i ∉ p.args.map Prod.fst := ha ▸ hid
      have hik : i ∉ p.kwargs.map Prod.fst := hk ▸ hid
      have hga : ParallelProcessor.argsOf
          { p with
            ids := p.ids ++ [i]
            args := p.args ++ [(i, a)]
            kwargs := p.kwargs ++ [(i, k)] } i = a := by
        simp [ParallelProcessor.argsOf, dictGet_append_right _ hia, dictGet]
      have hgk : ParallelProcessor.kwargsOf
          { p with
            ids := p.ids ++ [i]
            args := p.args ++ [(i, a)]
            kwargs := p.kwargs ++ [(i, k)] } i = k := by
        simp [ParallelProcessor.kwargsOf, dictGet_append_right _ hik, dictGet]
      rw [hga, hgk]
      exact hv

theorem addTasks_wf {p : ParallelProcessor Id Val} :
    ∀ {ts : List (Id × Option (List Val) × Option (Kwargs Val))}
      {q : ParallelProcessor Id Val},
      WF p → p.addTasks ts = .ok q →
      WF q ∧ q.worker = p.worker ∧ q.results = p.results ∧ q.threads = p.threads ∧
        q.processes = p.processes
  | [], q, hwf, h => by
    cases h
    exact ⟨hwf, rfl, rfl, rfl, rfl⟩
  | (id, a, k) :: rest, q, hwf, h => by
    cases ha : p.add_argument id a k with
    | error e => rw [ParallelProcessor.addTasks, ha] at h; cases h
    | ok p1 =>
      rw [ParallelProcessor.addTasks, ha] at h
      obtain ⟨_, _, hq⟩ := add_argument_ok_inv ha
      have h1 := addTasks_wf (add_argument_ok_wf hwf ha) h
      subst hq
      simpa using h1

theorem wf_init (worker : Option (Worker Val)) (threads cpuCount : ℕ) :
    WF (ParallelProcessor.init worker threads cpuCount : ParallelProcessor Id Val) := by
  refine ⟨⟨rfl, rfl⟩, List.nodup_nil, ?_⟩
  intro i hi
  simp [ParallelProcessor.init] at hi

theorem buildSubmissions_noWorker {p : ParallelProcessor Id Val}
    (hw : p.worker = none) {l : List Id} (hl : l ≠ []) :
    p.buildSubmissions l = .error .workerNotSet := by
  cases l with
  | nil => exact absurd rfl hl
  | cons id rest =>
    simp [ParallelProcessor.buildSubmissions, ParallelProcessor.pool_apply_async, hw]

theorem run_registry_preserved (p : ParallelProcessor Id Val) (setIter : List Id → List Id)
    (timedOut : Id → Bool) (clock : ℕ → ℚ) (progressbar : Bool) :
    (p.run setIter timedOut clock progressbar).proc.ids = p.ids ∧
      (p.run setIter timedOut clock progressbar).proc.args = p.args ∧
      (p.run setIter timedOut clock progressbar).proc.kwargs = p.kwargs ∧
      (p.run setIter timedOut clock progressbar).proc.worker = p.worker ∧
      (p.run setIter timedOut clock progressbar).proc.threads = p.threads := by
  cases hc : p.create_processes setIter with
  | error e => simp [ParallelProcessor.run, hc]
  | ok q =>
    obtain ⟨procs, _, hq⟩ := create_processes_inv hc
    subst hq
    cases hwk : p.worker with
    | none => simp [ParallelProcessor.run, hc, hwk]
    | some w =>
      cases progressbar <;> simp [ParallelProcessor.run, hc, hwk]

theorem create_processes_registry_preserved {p q : ParallelProcessor Id Val}
    {setIter : List Id → List Id} (h : p.create_processes setIter = .ok q) :
    q.ids = p.ids ∧ q.args = p.args ∧ q.kwargs = p.kwargs := by
  obtain ⟨procs, _, hq⟩ := create_processes_inv h
  subst hq
  exact ⟨rfl, rfl, rfl⟩

theorem applyOp_regShape {p : ParallelProcessor Id Val} (op : Op Id Val)
    (h : RegShape p) : RegShape (applyOp p op) := by
  cases op with
  | setWorkerOp w => exact h
  | addTaskOp id a k =>
    cases ha : p.add_argument id a k with
    | error e => simpa [applyOp, ha] using h
    | ok q =>
      obtain ⟨_, _, hq⟩ := add_argument_ok_inv ha
      subst hq
      obtain ⟨h1, h2⟩ := h
      exact ⟨by simpa [applyOp, ha] using by simp [h1], by simpa [applyOp, ha] using by simp [h2]⟩
  | dispatchOp setIter =>
    cases hc : p.create_processes setIter with
    | error e => simpa [applyOp, hc] using h
    | ok q =>
      obtain ⟨hids, hargs, hkwargs⟩ := create_processes_registry_preserved hc
      exact ⟨by simp [applyOp, hc, hargs, hids, h.1], by simp [applyOp, hc, hkwargs, hids, h.2]⟩
  | runOp setIter timedOut clock progressbar =>
    obtain ⟨hids, hargs, hkwargs, _, _⟩ :=
      run_registry_preserved p setIter timedOut clock progressbar
    exact ⟨by simp [applyOp, hargs, hids, h.1], by simp [applyOp, hkwargs, hids, h.2]⟩

theorem reach_regShape {p : ParallelProcessor Id Val} :
    ∀ {ops : List (Op Id Val)}, RegShape p → RegShape (reach p ops)
  | [], h => h
  | op :: rest, h => by
    rw [reach, List.foldl_cons]
    exact reach_regShape (applyOp_regShape op h)

theorem bpb_drive_eq {α : Type u} (clock : ℕ → ℚ) (total : ℕ) :
    ∀ (rest : List α) (i : ℕ),
      BasicProgressBar.drive clock total rest i =
        (rest, (List.range' i (rest.length + 1)).map
          (fun j => BasicProgressBar.msg clock j total))
  | [], i => by simp [BasicProgressBar.drive, List.range'_succ, List.range']
  | x :: rest, i => by
    simp only [BasicProgressBar.drive, bpb_drive_eq clock total rest (i + 1)]
    simp [List.range'_succ]

theorem bpb_consume_eq {α : Type u} (clock : ℕ → ℚ) (items : List α) :
    BasicProgressBar.consume clock items =
      (items, (List.range (items.length + 1)).map
        (fun j => BasicProgressBar.msg clock j items.length)) := by
  rw [BasicProgressBar.consume, bpb_drive_eq, List.range_eq_range']

theorem bpb_msg_data (clock : ℕ → ℚ) (j total : ℕ) :
    (BasicProgressBar.msg clock j total).data =
      '\r' :: ("Completed ".data ++ (toString j).data ++ "/".data ++
        (toString total).data ++ " processes. ".data ++
        (BasicProgressBar.time_passed (clock j - clock 0)).data ++ " passed.".data) ++
        (if j = total then ['\n'] else []) := by
  by_cases h : j = total <;>
    simp [BasicProgressBar.msg, BasicProgressBar.msgBody, h, String.data_append]

theorem bpb_msg_head (clock : ℕ → ℚ) (j total : ℕ) :
    (BasicProgressBar.msg clock j total).data.head? = some '\r' := by
  rw [bpb_msg_data]
  rfl

theorem getLast_passed (l : List Char) : (l ++ " passed.".data).getLast? = some '.' := by
  rw [List.getLast?_append_of_ne_nil]
  · rfl
  · simp [String.data]

theorem bpb_msg_last_of_ne (clock : ℕ → ℚ) {j total : ℕ} (h : j ≠ total) :
    (BasicProgressBar.msg clock j total).data.getLast? = some '.' := by
  rw [bpb_msg_data, if_neg h, List.append_nil, ← List.cons_append, getLast_passed]

theorem bpb_msg_last_of_eq (clock : ℕ → ℚ) (total : ℕ) :
    (BasicProgressBar.msg clock total total).data.getLast? = some '\n' := by
  rw [bpb_msg_data, if_pos rfl, ← List.cons_append, List.getLast?_concat]

theorem bpb_msg_contains (clock : ℕ → ℚ) (j total : ℕ) :
    (toString j).data <:+: (BasicProgressBar.msg clock j total).data ∧
      (toString total).data <:+: (BasicProgressBar.msg clock j total).data ∧
      (BasicProgressBar.time_passed (clock j - clock 0)).data <:+:
        (BasicProgressBar.msg clock j total).data := by
  rw [bpb_msg_data]
  refine ⟨⟨'\r' :: "Completed ".data,
      "/".data ++ (toString total).data ++ " processes. ".data ++
        (BasicProgressBar.time_passed (clock j - clock 0)).data ++ " passed.".data ++
        (if j = total then ['\n'] else []), ?_⟩,
    ⟨'\r' :: ("Completed ".data ++ (toString j).data ++ "/".data),
      " processes. ".data ++ (BasicProgressBar.time_passed (clock j - clock 0)).data ++
        " passed.".data ++ (if j = total then ['\n'] else []), ?_⟩,
    ⟨'\r' :: ("Completed ".data ++ (toString j).data ++ "/".data ++
        (toString total).data ++ " processes. ".data),
      " passed.".data ++ (if j = total then ['\n'] else []), ?_⟩⟩ <;>
    simp [List.append_assoc]

end Lemmas

section Claims

variable [DecidableEq Id]

/-- C4: for every registry state and every identifier already registered, a
second `add_argument` with that identifier (and valid arguments, i.e. at least
one truthy of `func_args`/`func_kwargs`, so that the earlier missing-arguments
check does not fire first) raises `DuplicateIdentifier`, and the instance —
in particular the stored args and kwargs of that identifier and of every other
entry — is exactly as it was before the rejected call. -/
theorem c4_duplicate_rejected {p : ParallelProcessor Id Val} {id : Id}
    (a : Option (List Val)) (k : Option (Kwargs Val))
    (hid : id ∈ p.ids) (hv : (pyTruthy a || pyTruthy k) = true) :
    p.add_argument id a k = .error .duplicateIdentifier ∧
      applyOp p (.addTaskOp id a k) = p ∧
      (applyOp p (.addTaskOp id a k)).args = p.args ∧
      (applyOp p (.addTaskOp id a k)).kwargs = p.kwargs := by
  have h1 : p.add_argument id a k = .error .duplicateIdentifier := by
    have hvv : (!pyTruthy a && !pyTruthy k) = false := by
      revert hv
      cases pyTruthy a <;> cases pyTruthy k <;> simp
    simp [ParallelProcessor.add_argument, hvv, hid]
  exact ⟨h1, by simp [applyOp, h1], by simp [applyOp, h1], by simp [applyOp, h1]⟩

/-- Witness for C4 at a concrete instance: id 1 is registered in
`sampleProcessor`, so re-registering it is rejected and the state survives. -/
theorem c4_witness :
    sampleProcessor.add_argument 1 (some [9]) none = .error .duplicateIdentifier ∧
      applyOp sampleProcessor (.addTaskOp 1 (some [9]) none) = sampleProcessor ∧
      (applyOp sampleProcessor (.addTaskOp 1 (some [9]) none)).args = sampleProcessor.args ∧
      (applyOp sampleProcessor (.addTaskOp 1 (some [9]) none)).kwargs =
        sampleProcessor.kwargs :=
  c4_duplicate_rejected (some [9]) none (by decide) (by decide)

/-- C5: `add_argument` with neither `func_args` nor `func_kwargs` supplied
raises `MissingArguments` and leaves the registry untouched; moreover a
registration succeeds only when at least one of the two arguments is supplied
and non-empty (Python-truthy). -/
theorem c5_missing_arguments (p : ParallelProcessor Id Val) (id : Id) :
    p.add_argument id none none = .error .missingArguments ∧
      applyOp p (.addTaskOp id none none) = p ∧
      ∀ (a : Option (List Val)) (k : Option (Kwargs Val)) (q : ParallelProcessor Id Val),
        p.add_argument id a k = .ok q → (pyTruthy a || pyTruthy k) = true := by
  have h1 : p.add_argument id none none = .error .missingArguments := by
    simp [ParallelProcessor.add_argument, pyTruthy]
  exact ⟨h1, by simp [applyOp, h1], fun a k q h => (add_argument_ok_inv h).1⟩

/-- Witness for C5 at a concrete instance (the inner implication is exercised
by the successful registration of id 9 with a truthy argument tuple). -/
theorem c5_witness :
    sampleProcessor.add_argument 9 none none = .error .missingArguments ∧
      applyOp sampleProcessor (.addTaskOp 9 none none) = sampleProcessor :=
  ⟨(c5_missing_arguments sampleProcessor 9).1, (c5_missing_arguments sampleProcessor 9).2.1⟩

/-- C6: `run` on a non-empty registry with no worker set raises
`WorkerNotSet` and the whole instance is unchanged: no submission is created
(`processes` keeps its prior value, and the `AttributeError` of
`_pool_apply_async` fires before any `apply_async` call), and the result set
keeps its prior (empty, on a fresh instance) value. -/
theorem c6_worker_not_set {p : ParallelProcessor Id Val} {setIter : List Id → List Id}
    (timedOut : Id → Bool) (clock : ℕ → ℚ) (progressbar : Bool)
    (hw : p.worker = none) (hshape : RegShape p) (hne : p.ids ≠ [])
    (hperm : (setIter p.ids).Perm p.ids) :
    p.run setIter timedOut clock progressbar = ⟨p, some .workerNotSet, []⟩ ∧
      (p.run setIter timedOut clock progressbar).proc.processes = p.processes ∧
      (p.run setIter timedOut clock progressbar).proc.results = p.results := by
  have hids : p.ids.isEmpty = false := by
    cases h : p.ids with
    | nil => exact absurd h hne
    | cons a l => simp [h]
  have hargs : p.args.isEmpty = false := by
    cases h : p.args with
    | nil => exact absurd (by simpa [h] using hshape.1.symm) hne
    | cons a l => simp [h]
  have hsne : setIter p.ids ≠ [] := by
    intro h0
    have h1 := hperm.symm
    rw [h0] at h1
    exact hne h1.eq_nil
  have hb := buildSubmissions_noWorker hw hsne
  have hc : p.create_processes setIter = .error .workerNotSet := by
    simp [ParallelProcessor.create_processes, hids, hargs, hb]
  have h2 : p.run setIter timedOut clock progressbar = ⟨p, some .workerNotSet, []⟩ := by
    simp [ParallelProcessor.run, hc]
  exact ⟨h2, by rw [h2], by rw [h2]⟩

/-- Witness for C6 at a concrete instance with one task and no worker. -/
theorem c6_witness :
    noWorkerProcessor.run id (fun _ => false) (fun _ => 0) false =
        ⟨noWorkerProcessor, some .workerNotSet, []⟩ ∧
      noWorkerProcessor.results = [] :=
  ⟨(c6_worker_not_set (fun _ => false) (fun _ => 0) false rfl ⟨rfl, rfl⟩ (by decide)
      (List.Perm.refl _)).1, rfl⟩

/-- C1: for every worker, every well-formed registry (valid truthy
args/kwargs, pairwise-distinct identifiers) on a fresh instance, and every
set-iteration order, if `run` completes without failure then the result set
holds exactly one entry per registered identifier (its keys are a permutation
of the registered ids, without duplicates), and the entry of every registered
id is the worker applied to that id's stored positional and keyword arguments
(as passed by `_pool_apply_async`, i.e. `asyncCall` of the stored pair). -/
theorem c1_run_postcondition {p : ParallelProcessor Id Val} {w : Worker Val}
    {setIter : List Id → List Id} {timedOut : Id → Bool} {clock : ℕ → ℚ}
    {progressbar : Bool}
    (hw : p.worker = some w) (hwf : WF p) (hres : p.results = [])
    (hperm : (setIter p.ids).Perm p.ids)
    (hok : (p.run setIter timedOut clock progressbar).err = none) :
    ((p.run setIter timedOut clock progressbar).proc.results.map Prod.fst).Perm p.ids ∧
      ((p.run setIter timedOut clock progressbar).proc.results.map Prod.fst).Nodup ∧
      ∀ id ∈ p.ids,
        dictGet ((p.run setIter timedOut clock progressbar).proc.results) id =
          w (asyncCall (p.argsOf id) (p.kwargsOf id)).1
            (asyncCall (p.argsOf id) (p.kwargsOf id)).2 := by
  have hkeys := run_ok_keys hw hwf hres hperm hok
  refine ⟨by rw [hkeys]; exact hperm, ?_, run_ok_lookup hw hwf hres hperm hok⟩
  rw [hkeys]
  exact hperm.symm.nodup hwf.2.1

/-- Witness for C1: a successful concrete run maps id 2 to `sampleWorker`
applied to its stored arguments. -/
theorem c1_witness :
    dictGet ((sampleProcessor.run id (fun _ => false) (fun _ => 0) false).proc.results) 2 =
      sampleWorker (asyncCall (sampleProcessor.argsOf 2) (sampleProcessor.kwargsOf 2)).1
        (asyncCall (sampleProcessor.argsOf 2) (sampleProcessor.kwargsOf 2)).2 :=
  (@c1_run_postcondition ℕ ℕ _ sampleProcessor sampleWorker id (fun _ => false)
    (fun _ => 0) false rfl (by decide) rfl (List.Perm.refl _) (by rfl)).2.2 2 (by decide)

/-- C8: `run` with the built-in progress bar and `run` without a progress bar
produce the same instance state (in particular the same result set) and the
same propagated error; the progress wrapper changes only what is printed. -/
theorem c8_progress_transparent (p : ParallelProcessor Id Val)
    (setIter : List Id → List Id) (timedOut : Id → Bool) (clock : ℕ → ℚ) :
    (p.run setIter timedOut clock true).proc = (p.run setIter timedOut clock false).proc ∧
      (p.run setIter timedOut clock true).err =
        (p.run setIter timedOut clock false).err := by
  cases hc : p.create_processes setIter with
  | error e => simp [ParallelProcessor.run, hc]
  | ok q =>
    cases hwk : q.worker with
    | none => simp [ParallelProcessor.run, hc, hwk]
    | some w =>
      constructor
      · simp [ParallelProcessor.run, hc, hwk, collectProgress_fst]
      · simp [ParallelProcessor.run, hc, hwk, collectProgress_err]

/-- C9: construction with a requested thread count above the available
hardware concurrency silently clamps `threads` to the hardware concurrency,
and an instance so constructed (after registering any tasks) still completes
every registered task with the correct result whenever every handle resolves
(no timeout, no worker error). -/
theorem c9_thread_clamp {w : Worker Val} {threads cpuCount : ℕ}
    {ts : List (Id × Option (List Val) × Option (Kwargs Val))}
    {p : ParallelProcessor Id Val} {setIter : List Id → List Id} {timedOut : Id → Bool}
    (clock : ℕ → ℚ) (progressbar : Bool)
    (hgt : threads > cpuCount)
    (hbuild : (ParallelProcessor.init (some w) threads cpuCount).addTasks ts = .ok p)
    (hne : p.ids ≠ [])
    (hperm : (setIter p.ids).Perm p.ids)
    (hall : ∀ e ∈ p.submissions setIter, (resolveEntry w timedOut e).isSome = true) :
    p.threads = cpuCount ∧
      (p.run setIter timedOut clock progressbar).err = none ∧
      ∀ id ∈ p.ids,
        dictGet ((p.run setIter timedOut clock progressbar).proc.results) id =
          w (asyncCall (p.argsOf id) (p.kwargsOf id)).1
            (asyncCall (p.argsOf id) (p.kwargsOf id)).2 := by
  obtain ⟨hwf, hworker, hresults, hthreads, _⟩ := addTasks_wf (wf_init _ _ _) hbuild
  have hw : p.worker = some w := by rw [hworker]; rfl
  have hth : p.threads = cpuCount := by
    rw [hthreads]
    simp [ParallelProcessor.init, hgt]
  have herr := run_total_ok clock progressbar hw hwf hne hperm hall
  exact ⟨hth, herr, run_ok_lookup hw hwf (by rw [hresults]; rfl) hperm herr⟩

/-- Witness for C9: 8 threads requested on a 2-cpu machine; both registered
tasks complete correctly. -/
theorem c9_witness :
    clampProcessor.threads = 2 ∧
      (clampProcessor.run id (fun _ => false) (fun _ => 0) false).err = none ∧
      dictGet ((clampProcessor.run id (fun _ => false) (fun _ => 0) false).proc.results) 1 =
        sampleWorker (asyncCall (clampProcessor.argsOf 1) (clampProcessor.kwargsOf 1)).1
          (asyncCall (clampProcessor.argsOf 1) (clampProcessor.kwargsOf 1)).2 := by
  have h := @c9_thread_clamp ℕ ℕ _ sampleWorker 8 2
    [(1, some [1], none), (2, some [2], none)] clampProcessor id (fun _ => false)
    (fun _ => 0) false
    (by decide) rfl (by decide) (List.Perm.refl _) (by decide)
  exact ⟨h.1, h.2.1, h.2.2 1 (by decide)⟩

/-- C10: in every state reachable from construction by any sequence of
`set_worker`, `add_argument` (succeeding or raising), `_create_processes` and
`run` operations, an identifier is registered in `self.ids` exactly when it
has an entry in `self.args` and exactly when it has an entry in
`self.kwargs`. -/
theorem c10_registry_consistent (worker : Option (Worker Val)) (threads cpuCount : ℕ)
    (ops : List (Op Id Val)) (id : Id) :
    (id ∈ (reach (ParallelProcessor.init worker threads cpuCount) ops).ids ↔
        (dictGet (reach (ParallelProcessor.init worker threads cpuCount) ops).args id).isSome
          = true) ∧
      (id ∈ (reach (ParallelProcessor.init worker threads cpuCount) ops).ids ↔
        (dictGet (reach (ParallelProcessor.init worker threads cpuCount) ops).kwargs id).isSome
          = true) := by
  have hshape : RegShape (reach (ParallelProcessor.init worker threads cpuCount) ops) :=
    reach_regShape ⟨rfl, rfl⟩
  constructor
  · rw [dictGet_isSome_iff, hshape.1]
  · rw [dictGet_isSome_iff, hshape.2]

/-- C2 counterexample: on a concrete run whose second task fails, `run`
raises `TaskFailure 2`, yet the caller-visible results mapping of the instance
is `[(1, 25)]` — the result gathered before the failing identifier *is*
exposed to the caller, so the batch is not all-or-nothing as the claim
states.  (The absence of an entry for id 3 also shows collection stopped at
the failure.) -/
theorem c2_counterexample :
    (failProcessor.run id (fun _ => false) (fun _ => 0) false).err =
        some (.taskFailure 2) ∧
      (failProcessor.run id (fun _ => false) (fun _ => 0) false).proc.results =
        [(1, 25)] ∧
      ¬ (failProcessor.run id (fun _ => false) (fun _ => 0) false).proc.results = [] :=
  ⟨rfl, rfl, by decide⟩

/-- C2 (amended): when some handle resolution fails, `run` raises
`TaskFailure` for the *first* failing identifier in submission order: every
handle before it resolved successfully, the failing handle did not, and the
results mapping of the instance afterwards holds exactly the values of the
handles before the failing one (so no handle after the failure was awaited,
but the results gathered before the failure remain stored and are observable
by the caller — the batch is not all-or-nothing). -/
theorem c2_fail_fast {p : ParallelProcessor Id Val} {w : Worker Val}
    {setIter : List Id → List Id} {timedOut : Id → Bool} {clock : ℕ → ℚ}
    {progressbar : Bool} {e : PPError Id}
    (hw : p.worker = some w) (hwf : WF p) (hres : p.results = [])
    (hperm : (setIter p.ids).Perm p.ids) (hne : p.ids ≠ [])
    (herr : (p.run setIter timedOut clock progressbar).err = some e) :
    ∃ fid call pre post,
      e = .taskFailure fid ∧
      p.submissions setIter = pre ++ (fid, call) :: post ∧
      resolveEntry w timedOut (fid, call) = none ∧
      List.Forall₂ (Collected w timedOut) pre
        ((p.run setIter timedOut clock progressbar).proc.results) :=
  run_fail_shape hw hwf hres hperm herr hne

/-- Witness for the amended C2 at the concrete failing run. -/
theorem c2_witness :
    ∃ fid call pre post,
      (PPError.taskFailure 2 : PPError ℕ) = .taskFailure fid ∧
      failProcessor.submissions id = pre ++ (fid, call) :: post ∧
      resolveEntry failWorker (fun _ => false) (fid, call) = none ∧
      List.Forall₂ (Collected failWorker (fun _ => false)) pre
        ((failProcessor.run id (fun _ => false) (fun _ => 0) false).proc.results) :=
  @c2_fail_fast ℕ ℕ _ failProcessor failWorker id (fun _ => false) (fun _ => 0) false
    (.taskFailure 2) rfl (by decide) rfl (List.Perm.refl _) (by decide) rfl

/-- C3 counterexample: identifiers registered in the order 2, 1 are iterated
by the CPython set as 1, 2, so `_create_processes` builds the submissions
dict keyed `[1, 2]` — not the registration order `[2, 1]`. -/
theorem c3_counterexample :
    orderProcessor.ids = [2, 1] ∧
      (orderProcessor.create_processes pySetIterSmall).map
        (fun q => q.processes.map Prod.fst) = .ok [1, 2] ∧
      ¬ ([1, 2] = ([2, 1] : List ℕ)) :=
  ⟨rfl, rfl, by decide⟩

/-- C3 (amended): for a well-formed registry with a worker, dispatch builds
the identifier-to-handle mapping deterministically in the *iteration order of
the identifier set* (which is a permutation of the registered identifiers but
not in general their registration order), and on a successful run the handles
are awaited — and their results stored — in exactly that submission order. -/
theorem c3_submission_order {p : ParallelProcessor Id Val} {w : Worker Val}
    {setIter : List Id → List Id}
    (hw : p.worker = some w) (hwf : WF p) (hres : p.results = [])
    (hperm : (setIter p.ids).Perm p.ids) (hne : p.ids ≠ []) :
    (p.create_processes setIter).map (fun q => q.processes.map Prod.fst) =
        .ok (setIter p.ids) ∧
      ∀ (timedOut : Id → Bool) (clock : ℕ → ℚ) (progressbar : Bool),
        (p.run setIter timedOut clock progressbar).err = none →
        ((p.run setIter timedOut clock progressbar).proc.results).map Prod.fst =
          setIter p.ids := by
  obtain ⟨hshape, hnd, hvalid⟩ := hwf
  have hmem : ∀ id ∈ setIter p.ids, id ∈ p.ids := fun id hi => hperm.mem_iff.mp hi
  have hc := create_processes_ok hw hshape hvalid hne hmem
  refine ⟨by rw [hc]; simp [Except.map, submissions_keys], ?_⟩
  intro timedOut clock progressbar hok
  exact run_ok_keys hw ⟨hshape, hnd, hvalid⟩ hres hperm hok

/-- Witness for the amended C3 at the concrete instance registered as 2, 1:
submission and collection both follow the set order `[1, 2]`. -/
theorem c3_witness :
    (orderProcessor.create_processes pySetIterSmall).map
        (fun q => q.processes.map Prod.fst) = .ok [1, 2] ∧
      ((orderProcessor.run pySetIterSmall (fun _ => false) (fun _ => 0) false).proc.results).map
        Prod.fst = [1, 2] := by
  have h := @c3_submission_order ℕ ℕ _ orderProcessor sampleWorker pySetIterSmall
    rfl (by decide) rfl (by decide) (by decide)
  exact ⟨h.1, h.2 (fun _ => false) (fun _ => 0) false (by rfl)⟩

/-- C7 counterexample: consuming a sequence of 10 known items through
`BasicProgressBar` writes 11 progress lines, not 10: `__next__` writes its
message *before* advancing the underlying iterator, so the final call — the
one that raises `StopIteration` — still writes the `10/10` line (the
repository's own test asserts `n + 1` writes). -/
theorem c7_counterexample :
    (BasicProgressBar.consume (fun _ => (0 : ℚ)) (List.range 10)).2.length = 11 ∧
      ¬ ((11 : ℕ) = 10) :=
  ⟨rfl, by decide⟩

/-- C7 (amended): consuming a finite sequence of `N` known items through the
built-in progress reporter yields the items unchanged and emits exactly
`N + 1` progress lines, the `j`-th (for `j = 0, ..., N`) reporting `j`
completed out of `N`; every line is carriage-return-prefixed, the first `N`
lines end in `'.'` (no trailing newline), the final (`N`-th) line is
terminated with a newline, and every line contains the completed count, the
total count, and the elapsed time in hours/minutes/fractional-seconds. -/
theorem c7_progress_lines {α : Type u} (items : List α) (clock : ℕ → ℚ) :
    (BasicProgressBar.consume clock items).1 = items ∧
      (BasicProgressBar.consume clock items).2 =
        (List.range (items.length + 1)).map
          (fun j => BasicProgressBar.msg clock j items.length) ∧
      (BasicProgressBar.consume clock items).2.length = items.length + 1 ∧
      (∀ j total : ℕ, (BasicProgressBar.msg clock j total).data.head? = some '\r') ∧
      (∀ j total : ℕ, j ≠ total →
        (BasicProgressBar.msg clock j total).data.getLast? = some '.') ∧
      (∀ total : ℕ,
        (BasicProgressBar.msg clock total total).data.getLast? = some '\n') ∧
      (∀ j total : ℕ,
        (toString j).data <:+: (BasicProgressBar.msg clock j total).data ∧
        (toString total).data <:+: (BasicProgressBar.msg clock j total).data ∧
        (BasicProgressBar.time_passed (clock j - clock 0)).data <:+:
          (BasicProgressBar.msg clock j total).data) := by
  have h := bpb_consume_eq clock items
  refine ⟨by rw [h], by rw [h], by rw [h]; simp, bpb_msg_head clock,
    fun j total hne => bpb_msg_last_of_ne clock hne, bpb_msg_last_of_eq clock,
    bpb_msg_contains clock⟩

/-- Witness for the amended C7 at 10 items: 11 lines, and line 3 of the run
is not newline-terminated. -/
theorem c7_witness :
    (BasicProgressBar.consume (fun _ => (0 : ℚ)) (List.range 10)).2.length = 10 + 1 ∧
      (BasicProgressBar.msg (fun _ => (0 : ℚ)) 3 10).data.getLast? = some '.' := by
  have h := c7_progress_lines (List.range 10) (fun _ => (0 : ℚ))
  exact ⟨h.2.2.1, h.2.2.2.2.1 3 10 (by decide)⟩

end Claims

end ParallelProcessorSpec
